import Mathlib

/-!
Verification development for the YouTube Hot Finder application (app.py).

The source is a single Streamlit script.  We shallowly embed the
quota-aware collection pipeline: the rate-limited API gateway (`yt_get`),
the quota ledger (`_record_quota`), the pagination walker
(`fetch_videos_by_search`), the detail batching (`batched`,
`fetch_video_details`), the metric calculator (`compute_metrics`), the
filter chain (`filter_duration_mode`, `contains_keywords`) and the
orchestration run block.

Modelling conventions: Python ints are `Nat` (all counters, durations and
view counts in the source are non-negative), Python floats that only feed
comparisons and exact arithmetic (`wait_minutes`, timestamps,
views-per-hour) are exact rationals `ℚ`, fallible calls return `Except`,
and the network is an environment of responses supplied to the functions.
-/

namespace YtHotFinder

/-- Python `n in h` on character lists, step 1: `prefixAt n h` holds when
`n` is a leading segment of `h`. -/
def prefixAt : List Char → List Char → Bool
  | [], _ => true
  | _ :: _, [] => false
  | n :: ns, h :: hs => n == h && prefixAt ns hs

/-- Python `n in h` on character lists: `n` occurs contiguously in `h`. -/
def substrAux (needle : List Char) : List Char → Bool
  | [] => prefixAt needle []
  | h :: hs => prefixAt needle (h :: hs) || substrAux needle hs

/-- Python `k in t` on strings: `k` occurs in `t` as a contiguous substring. -/
def substrOf (t k : String) : Bool := substrAux k.toList t.toList

/-- Python `s.startswith(pre)`. -/
def startswith (s pre : String) : Bool := prefixAt pre.toList s.toList

/-- Python `s.lower()` (ASCII case folding, as `String.toLower`). -/
def pyLower (s : String) : String := ⟨s.toList.map Char.toLower⟩

/-- Python `s.strip()`: drop leading and trailing whitespace. -/
def pyStrip (s : String) : String :=
  ⟨((s.toList.dropWhile Char.isWhitespace).reverse.dropWhile Char.isWhitespace).reverse⟩

/-! ## Quota ledger (session defaults, `_quota_units_for`, `_record_quota`) -/

/-- The quota-tracking part of `st.session_state`: the per-endpoint call
counters `q_calls`, the unit total `q_units` and the append-only log
`q_log` of (endpoint, units, request target, timestamp) entries. -/
structure QuotaState where
  search : Nat
  videos : Nat
  channels : Nat
  q_units : Nat
  q_log : List (String × Nat × String × Nat)
  deriving DecidableEq

/-- Session defaults: all counters zero, empty log. -/
def init_quota : QuotaState := ⟨0, 0, 0, 0, []⟩

/-- Unit cost per endpoint kind (by name prefix), from `_quota_units_for`. -/
def _quota_units_for (endpoint_name : String) : Nat :=
  if startswith endpoint_name "search" then 100
  else if startswith endpoint_name "videos" then 1
  else if startswith endpoint_name "channels" then 1
  else 0

/-- `_record_quota`: bump the matching call counter, add the units, append
one log entry.  The timestamp argument stands for `time.time()`. -/
def _record_quota (q : QuotaState) (endpoint_name path : String) (now : Nat) : QuotaState :=
  let units := _quota_units_for endpoint_name
  let q1 :=
    if startswith endpoint_name "search" then { q with search := q.search + 1 }
    else if startswith endpoint_name "videos" then { q with videos := q.videos + 1 }
    else if startswith endpoint_name "channels" then { q with channels := q.channels + 1 }
    else q
  { q1 with q_units := q1.q_units + units,
            q_log := q1.q_log ++ [(endpoint_name, units, path, now)] }

/-- The endpoint kinds the ledger distinguishes. -/
inductive EKind | search | videos | channels
  deriving DecidableEq

/-- Unit cost per kind: search = 100, detail lookup = 1, channel lookup = 1. -/
def unit_cost : EKind → Nat
  | .search => 100
  | .videos => 1
  | .channels => 1

/-- Call counter of one kind. -/
def kind_count (q : QuotaState) : EKind → Nat
  | .search => q.search
  | .videos => q.videos
  | .channels => q.channels

/-- Classification of an endpoint name, mirroring the prefix tests of
`_record_quota`. -/
def kindOf (endpoint_name : String) : Option EKind :=
  if startswith endpoint_name "search" then some .search
  else if startswith endpoint_name "videos" then some .videos
  else if startswith endpoint_name "channels" then some .channels
  else none

/-- Replay a sequence of recorded calls (endpoint, path, timestamp) from the
initial session state. -/
def run_quota (calls : List (String × String × Nat)) : QuotaState :=
  calls.foldl (fun q c => _record_quota q c.1 c.2.1 c.2.2) init_quota

/-! ## Rate-limited gateway (`yt_get`) -/

/-- One HTTP response as `yt_get` inspects it.  `errReason` is the reason of
the first element of `error.errors` in the parsed JSON body (`none` when the
body does not parse or carries no such field), `errMessage` is
`error.message` (defaulted to the empty string), `text` is the raw body. -/
structure HttpResponse where
  status : Nat
  errReason : Option String
  errMessage : String
  text : String

/-- The error-reason extraction of `yt_get`: first sub-error reason, else
the top-level message, else the raw body text (Python `or` chain, where
`None` and the empty string are falsy). -/
def extractReason (r : HttpResponse) : String :=
  match r.errReason with
  | some s => if s ≠ "" then s else if r.errMessage ≠ "" then r.errMessage else r.text
  | none => if r.errMessage ≠ "" then r.errMessage else r.text

/-- The fixed token set indicating quota or rate exhaustion. -/
def quotaTokens : List String := ["quota", "daily", "rate", "exceed"]

/-- The retry guard of `yt_get`, evaluated after the failure counter has
been incremented: status 403 or 429, a quota token occurring in the
lower-cased reason, a positive wait, and tries still within budget. -/
def retryCond (r : HttpResponse) (wait_minutes : ℚ) (tries max_retries : Nat) : Bool :=
  (r.status == 403 || r.status == 429)
    && quotaTokens.any (fun k => substrOf (pyLower (extractReason r)) k)
    && decide (0 < wait_minutes)
    && decide (tries ≤ max_retries)

/-- The retry loop of `yt_get` over a stream of responses (`resp i` is the
response to the i-th HTTP request).  On status 200 it returns the index of
the successful attempt (standing for the parsed body); on a qualifying
failure it waits and retries; otherwise it raises, carrying the status code
and the raw body. -/
def ytGetAux (resp : Nat → HttpResponse) (wait_minutes : ℚ) (max_retries : Nat)
    (attempt tries : Nat) : Except (Nat × String) Nat :=
  let r := resp attempt
  if r.status = 200 then .ok attempt
  else if h : retryCond r wait_minutes (tries + 1) max_retries = true then
    ytGetAux resp wait_minutes max_retries (attempt + 1) (tries + 1)
  else .error (r.status, r.text)
termination_by max_retries + 1 - tries
decreasing_by
  simp [retryCond, Bool.and_eq_true, decide_eq_true_eq] at h
  omega

/-- `yt_get`: the loop entered with `tries = 0` at the first request. -/
def yt_get (resp : Nat → HttpResponse) (wait_minutes : ℚ) (max_retries : Nat) :
    Except (Nat × String) Nat :=
  ytGetAux resp wait_minutes max_retries 0 0

/-! ## Pagination walker (`fetch_videos_by_search`) -/

/-- A fatal gateway outcome: the `RuntimeError` of `yt_get`, carrying the
HTTP status code and the raw body. -/
structure Fatal where
  status : Nat
  text : String
  deriving DecidableEq

/-- One page of a video search response as the walker reads it: the
`videoId` of each item, and the optional `nextPageToken`. -/
structure SearchPage where
  items : List String
  nextPageToken : Option String
  deriving DecidableEq

/-- One gateway request as issued: the endpoint and the `order` parameter
(absent for requests that carry none). -/
structure GwCall where
  endpoint : String
  order : Option String
  deriving DecidableEq

/-- Result of one walk: the returned identifiers (or the raised error), the
unconsumed part of the response stream, the quota ledger and the request
trace after the walk. -/
structure WalkOut where
  result : Except Fatal (List String)
  repliesLeft : List (Except Fatal SearchPage)
  quota : QuotaState
  trace : List GwCall

/-- Python truthiness of an optional string (`None` and `""` are falsy). -/
def truthy : Option String → Bool
  | none => false
  | some s => s ≠ ""

/-- The order tie-break of the walker:
`"date" if (published_after and order != "date") else order`. -/
def effective_order (published_after : Option String) (order : String) : String :=
  if truthy published_after && order ≠ "date" then "date" else order

/-- The inner page loop of the walker: append each item id, returning early
(second component `true`) as soon as `max_results ≤ len(ids)` after an
append. -/
def appendItems (ids items : List String) (max_results : Nat) : List String × Bool :=
  match items with
  | [] => (ids, false)
  | v :: vs =>
    let ids2 := ids ++ [v]
    if max_results ≤ ids2.length then (ids2, true) else appendItems ids2 vs max_results

/-- The page loop of `fetch_videos_by_search` over a finite stream of
responses: each iteration issues one search request (recorded in the
trace with the order parameter in force), raises on a fatal response,
records quota on success, accumulates ids with the early-return cap, and
continues only when a truthy `nextPageToken` came back.  An exhausted
stream behaves like a response without a next-page cursor. -/
def fetch_videos_by_search_aux (eff : String) (max_results : Nat) :
    List (Except Fatal SearchPage) → List String → QuotaState → List GwCall → WalkOut
  | [], ids, q, tr => ⟨.ok ids, [], q, tr⟩
  | rep :: rest, ids, q, tr =>
    let tr2 := tr ++ [⟨"search", some eff⟩]
    match rep with
    | .error e => ⟨.error e, rest, q, tr2⟩
    | .ok page =>
      let q2 := _record_quota q "search" "" 0
      match appendItems ids page.items max_results with
      | (ids2, true) => ⟨.ok ids2, rest, q2, tr2⟩
      | (ids2, false) =>
        match page.nextPageToken with
        | some tok =>
          if tok ≠ "" then fetch_videos_by_search_aux eff max_results rest ids2 q2 tr2
          else ⟨.ok ids2, rest, q2, tr2⟩
        | none => ⟨.ok ids2, rest, q2, tr2⟩

/-- `fetch_videos_by_search`: computes the effective order once, then walks
pages starting from an empty id list.  The query, channel, region, language
and `publishedAfter` inputs only shape the request parameters; of those,
`published_after` and `order` determine the order parameter every request
of the walk carries. -/
def fetch_videos_by_search (published_after : Option String) (order : String)
    (max_results : Nat) (replies : List (Except Fatal SearchPage))
    (q : QuotaState) (tr : List GwCall) : WalkOut :=
  fetch_videos_by_search_aux (effective_order published_after order) max_results replies [] q tr

/-- The item lists a response stream offers (errors offer none); the walk
result is always a prefix of their concatenation. -/
def pageItems : Except Fatal SearchPage → List String
  | .ok p => p.items
  | .error _ => []

/-! ## Batching (`batched`) -/

/-- The generator loop of `batched`: fill a batch, emit it when it reaches
`n`, and emit the final partial batch when non-empty. -/
def batchedAux (n : Nat) : List String → List String → List (List String)
  | [], batch => if batch = [] then [] else [batch]
  | x :: xs, batch =>
    let b := batch ++ [x]
    if b.length = n then b :: batchedAux n xs [] else batchedAux n xs b

/-- `batched(iterable, n)`: consecutive chunks of size `n`, final chunk
possibly shorter. -/
def batched (l : List String) (n : Nat) : List (List String) :=
  batchedAux n l []

/-! ## Metric calculator (`iso8601_to_seconds`, `compute_metrics`) -/

/-- Longest leading run of ASCII digits of a character list. -/
def takeDigits : List Char → List Char × List Char
  | [] => ([], [])
  | c :: cs =>
    if c.isDigit then
      let (ds, r) := takeDigits cs
      (c :: ds, r)
    else ([], c :: cs)

/-- Numeric value of a digit run. -/
def digitsToNat (ds : List Char) : Nat :=
  ds.foldl (fun a c => a * 10 + (c.toNat - 48)) 0

/-- One optional component `(\d+)X` of the duration pattern: succeeds only
when a non-empty digit run is followed by the given unit letter; otherwise
the input is left untouched (the regex drops the optional group). -/
def parseComp (unit : Char) (cs : List Char) : Option (Nat × List Char) :=
  match takeDigits cs with
  | ([], _) => none
  | (ds, c :: r) => if c = unit then some (digitsToNat ds, r) else none
  | (_, []) => none

/-- `iso8601_to_seconds`: full match of `PT(\d+H)?(\d+M)?(\d+S)?`; any
mismatch (including trailing input) yields 0. -/
def iso8601_to_seconds (duration : String) : Nat :=
  match duration.toList with
  | 'P' :: 'T' :: rest0 =>
    let (h, rest1) := match parseComp 'H' rest0 with
      | some (v, r) => (v, r)
      | none => (0, rest0)
    let (m, rest2) := match parseComp 'M' rest1 with
      | some (v, r) => (v, r)
      | none => (0, rest1)
    let (s, rest3) := match parseComp 'S' rest2 with
      | some (v, r) => (v, r)
      | none => (0, rest2)
    if rest3 = [] then h * 3600 + m * 60 + s else 0
  | _ => 0

/-- One video detail record, with the fields `compute_metrics` and the row
builder read.  `publishedAtSec` is the publish instant in epoch seconds
(the `datetime` parsing of the ISO timestamp is abstracted to the number it
denotes); `viewCount` is `statistics.viewCount` with its 0 default already
applied; `duration` is `contentDetails.duration` when present. -/
structure VItem where
  id : String
  title : String
  description : String
  tags : List String
  channelId : String
  channelTitle : String
  publishedAtSec : ℚ
  viewCount : Nat
  duration : Option String
  deriving DecidableEq

/-- The derived metrics of one item. -/
structure Metrics where
  publishedAt : ℚ
  views : Nat
  viewsPerHour : ℚ
  durationSec : Nat
  deriving DecidableEq

/-- `compute_metrics`: hours since publish floored at 1e-6, views per hour
as exact division, duration via `iso8601_to_seconds` with default `PT0S`. -/
def compute_metrics (nowSec : ℚ) (detail : VItem) : Metrics :=
  let published_dt := detail.publishedAtSec
  let hours_since : ℚ := max ((nowSec - published_dt) / 3600) (1 / 1000000)
  let views := detail.viewCount
  { publishedAt := published_dt,
    views := views,
    viewsPerHour := (views : ℚ) / hours_since,
    durationSec := iso8601_to_seconds (detail.duration.getD "PT0S") }

/-! ## Filter chain and small helpers -/

/-- Two-digit zero padding, as `f"{n:02d}"`. -/
def pad2 (n : Nat) : String :=
  if n < 10 then "0" ++ toString n else toString n

/-- `human_duration`: clock-style format, hours omitted when zero. -/
def human_duration (seconds : Nat) : String :=
  let h := seconds / 3600
  let m := seconds % 3600 / 60
  let s := seconds % 60
  if h ≠ 0 then pad2 h ++ ":" ++ pad2 m ++ ":" ++ pad2 s
  else pad2 m ++ ":" ++ pad2 s

/-- `filter_duration_mode`: form-factor filter over the three mode strings
(both, shorts, long form); any other mode accepts. -/
def filter_duration_mode (dur_sec : Nat) (mode : String) (shorts_sec : Nat) : Bool :=
  if mode = "둘다" then true
  else if mode = "쇼츠" then decide (dur_sec < shorts_sec)
  else if mode = "롱폼" then decide (shorts_sec ≤ dur_sec)
  else true

/-- `normalize_text`: case folding. -/
def normalize_text (s : String) : String := pyLower s

/-- `contains_keywords`: an empty keyword list accepts; otherwise the
keywords that strip to the empty string are discarded, the rest are
normalized, and mode "all" demands every one as a substring of the
normalized text while any other mode demands at least one. -/
def contains_keywords (text : String) (keywords : List String) (mode : String) : Bool :=
  if keywords.isEmpty then true
  else
    let t := normalize_text text
    let ks := (keywords.filter (fun k => pyStrip k ≠ "")).map normalize_text
    if mode = "all" then ks.all (fun k => substrOf t k)
    else ks.any (fun k => substrOf t k)

/-- `parse_list_field`: split on commas, then on whitespace, dropping empty
tokens (`p.strip()` of a whitespace-delimited token is the token itself). -/
def parse_list_field (txt : Option String) : List String :=
  match txt with
  | none => []
  | some t =>
    if t = "" then []
    else (t.splitOn ",").flatMap fun part =>
      (part.split Char.isWhitespace).filter (fun p => p ≠ "")

/-! ## Orchestration run block

The run block (triggered by the start button) is modelled as a function of
the configuration read from the session, a gateway environment of response
streams, and the session state.  `yt_get` invocations inside the helpers
are represented by their final outcomes (`Except Fatal _`), their retry
behaviour being the subject of `ytGetAux` above; each issued gateway call
is appended to a trace.  Python `dict` and `set` are association lists and
dedup lists (Python iteration order of a `set` is abstracted to insertion
order, which none of the verified properties depend on). -/

/-- One channel statistics record: `item.id` and the subscriber count with
its 0 default applied. -/
structure CItem where
  id : String
  subscriberCount : Nat
  deriving DecidableEq

/-- Python `d[k] = v` on an association list: replace in place, else append. -/
def upsert {α : Type} (m : List (String × α)) (k : String) (v : α) : List (String × α) :=
  if m.any (fun p => p.1 == k) then m.map (fun p => if p.1 == k then (k, v) else p)
  else m ++ [(k, v)]

/-- Python `d.get(k, dflt)` on an association list. -/
def lookupD {α : Type} (m : List (String × α)) (k : String) (dflt : α) : α :=
  match m.find? (fun p => p.1 == k) with
  | some p => p.2
  | none => dflt

/-- Python `s.update(ids)` on a dedup list. -/
def setUpdate (s ids : List String) : List String :=
  ids.foldl (fun acc v => if acc.contains v then acc else acc ++ [v]) s

/-- Dedup list of a list (Python `set(...)`). -/
def dedupList (l : List String) : List String := setUpdate [] l

/-- The gateway environment plus quota/trace state threaded through the
run: the remaining video-search pages, and streams of outcomes for
channel-resolution searches, `videos.list` batches and `channels.list`
batches (consumed at the respective counters). -/
structure GwState where
  searchReplies : List (Except Fatal SearchPage)
  resolveReplies : Nat → Except Fatal (Option String)
  nResolve : Nat
  videosReplies : Nat → Except Fatal (List VItem)
  nVideos : Nat
  channelsReplies : Nat → Except Fatal (List CItem)
  nChannels : Nat
  quota : QuotaState
  calls : List GwCall

/-- One walker invocation inside the run, threading the gateway state. -/
def runWalk (published_after : Option String) (order : String) (max_results : Nat)
    (gw : GwState) : Except Fatal (List String) × GwState :=
  let w := fetch_videos_by_search published_after order max_results gw.searchReplies gw.quota gw.calls
  (w.result, { gw with searchReplies := w.repliesLeft, quota := w.quota, calls := w.trace })

/-- `resolve_channel_ids`: tokens with the `@` sigil cost one search call
each and are replaced by the resolved channel id when one comes back
(unresolvable handles are silently dropped); other tokens pass through. -/
def resolve_channel_ids (tokens : List String) (out : List String) (gw : GwState) :
    Except Fatal (List String) × GwState :=
  match tokens with
  | [] => (.ok out, gw)
  | token :: rest =>
    if startswith token "@" then
      let rep := gw.resolveReplies gw.nResolve
      let gw2 := { gw with nResolve := gw.nResolve + 1,
                           calls := gw.calls ++ [⟨"search", none⟩] }
      match rep with
      | .error e => (.error e, gw2)
      | .ok chOpt =>
        let gw3 := { gw2 with quota := _record_quota gw2.quota "search" "" 0 }
        match chOpt with
        | some ch => resolve_channel_ids rest (out ++ [ch]) gw3
        | none => resolve_channel_ids rest out gw3
    else resolve_channel_ids rest (out ++ [token]) gw

/-- The batch loop of `fetch_video_details`: one `videos.list` call per
chunk, merging returned records into the detail map keyed by id. -/
def fetch_video_details_aux (batches : List (List String))
    (details : List (String × VItem)) (gw : GwState) :
    Except Fatal (List (String × VItem)) × GwState :=
  match batches with
  | [] => (.ok details, gw)
  | _ :: rest =>
    let rep := gw.videosReplies gw.nVideos
    let gw2 := { gw with nVideos := gw.nVideos + 1,
                         calls := gw.calls ++ [⟨"videos", none⟩] }
    match rep with
    | .error e => (.error e, gw2)
    | .ok items =>
      let gw3 := { gw2 with quota := _record_quota gw2.quota "videos" "" 0 }
      fetch_video_details_aux rest (items.foldl (fun d it => upsert d it.id it) details) gw3

/-- `fetch_video_details`: empty input returns at once with no call; else
chunks of 50. -/
def fetch_video_details (video_ids : List String) (gw : GwState) :
    Except Fatal (List (String × VItem)) × GwState :=
  if video_ids.isEmpty then (.ok [], gw)
  else fetch_video_details_aux (batched video_ids 50) [] gw

/-- The batch loop of `fetch_channel_subs`. -/
def fetch_channel_subs_aux (batches : List (List String))
    (subs : List (String × Nat)) (gw : GwState) :
    Except Fatal (List (String × Nat)) × GwState :=
  match batches with
  | [] => (.ok subs, gw)
  | _ :: rest =>
    let rep := gw.channelsReplies gw.nChannels
    let gw2 := { gw with nChannels := gw.nChannels + 1,
                         calls := gw.calls ++ [⟨"channels", none⟩] }
    match rep with
    | .error e => (.error e, gw2)
    | .ok items =>
      let gw3 := { gw2 with quota := _record_quota gw2.quota "channels" "" 0 }
      fetch_channel_subs_aux rest (items.foldl (fun d it => upsert d it.id it.subscriberCount) subs) gw3

/-- `fetch_channel_subs`: empty input returns at once; else chunks of 50. -/
def fetch_channel_subs (channel_ids : List String) (gw : GwState) :
    Except Fatal (List (String × Nat)) × GwState :=
  if channel_ids.isEmpty then (.ok [], gw)
  else fetch_channel_subs_aux (batched channel_ids 50) [] gw

/-- Rounding to `n` decimal places (Python `round(x, n)`, idealized from
binary floating point to exact rationals). -/
def round_to (n : Nat) (x : ℚ) : ℚ :=
  (round (x * (10 : ℚ) ^ n) : ℤ) / (10 : ℚ) ^ n

/-- One row of the published result set (presentational string formatting
of the upload instant and the thumbnail URL fallback chain are out of the
modelled core). -/
structure ResultRow where
  channel : String
  video_title : String
  uploaded_ts : ℚ
  views : Nat
  views_per_hour : ℚ
  subscribers : Nat
  views_to_subscribers : Option ℚ
  duration : String
  duration_sec : Nat
  url : String
  vid : String
  deriving DecidableEq

/-- The configuration the run block reads from the session state. -/
structure RunConfig where
  api_key : String
  run_mode : String
  form_factor : String
  shorts_sec : Nat
  days_back : Nat
  per_channel_max : Nat
  per_keyword_max : Nat
  min_vph : ℚ
  wait_minutes : ℚ
  ignore_filters : Bool
  target_regions : List String
  strict_on : Bool
  strict_mode_key : String
  effective_keywords : List String
  channels_input : Option String

/-- How a run can fail: missing credential, empty inputs, or a propagated
gateway fatality. -/
inductive RunError where
  | missingKey
  | configError
  | gateway (e : Fatal)
  deriving DecidableEq

/-- The channel input list after resolving the run mode: parsed from the
channels field only when the mode includes channels. -/
def input_channels_of (cfg : RunConfig) : List String :=
  if cfg.run_mode = "채널" ∨ cfg.run_mode = "둘다" then parse_list_field cfg.channels_input
  else []

/-- One fan-out loop: one walker invocation per (region × source) branch,
merging ids into the collected dedup set; a fatal branch aborts. -/
def fan_out (published_after : Option String) (order : String) (max_results : Nat) :
    List (String × String) → List String → GwState → Except Fatal (List String) × GwState
  | [], collected, gw => (.ok collected, gw)
  | _ :: rest, collected, gw =>
    match runWalk published_after order max_results gw with
    | (.error e, gw2) => (.error e, gw2)
    | (.ok ids, gw2) => fan_out published_after order max_results rest (setUpdate collected ids) gw2

/-- The per-item body of the row loop: metric computation, the duration and
velocity filters (unless bypassed), the strict keyword filter, and row
construction with the subscriber ratio left undefined at zero subscribers. -/
def buildRow (cfg : RunConfig) (nowSec : ℚ) (subs_map : List (String × Nat))
    (vid : String) (detail : VItem) : Option ResultRow :=
  let metrics := compute_metrics nowSec detail
  let dur_sec := metrics.durationSec
  if ¬cfg.ignore_filters ∧ filter_duration_mode dur_sec cfg.form_factor cfg.shorts_sec = false then
    none
  else if ¬cfg.ignore_filters ∧ metrics.viewsPerHour < cfg.min_vph then none
  else
    let all_keywords_norm := cfg.effective_keywords.map normalize_text
    let tag_text := String.intercalate " " detail.tags
    let combined := detail.title ++ "\n" ++ detail.description ++ "\n" ++ tag_text
    if cfg.strict_on ∧ all_keywords_norm ≠ [] ∧
        contains_keywords combined all_keywords_norm cfg.strict_mode_key = false then none
    else
      let subs := lookupD subs_map detail.channelId 0
      let vs : Option ℚ :=
        if 0 < subs then some (round_to 3 ((metrics.views : ℚ) / (subs : ℚ))) else none
      some { channel := detail.channelTitle,
             video_title := detail.title,
             uploaded_ts := metrics.publishedAt,
             views := metrics.views,
             views_per_hour := round_to 2 metrics.viewsPerHour,
             subscribers := subs,
             views_to_subscribers := vs,
             duration := human_duration dur_sec,
             duration_sec := dur_sec,
             url := "https://www.youtube.com/watch?v=" ++ vid,
             vid := vid }

/-- The row loop over the detail map. -/
def buildRows (cfg : RunConfig) (nowSec : ℚ) (details : List (String × VItem))
    (subs_map : List (String × Nat)) : List ResultRow :=
  details.foldl
    (fun rows p =>
      match buildRow cfg nowSec subs_map p.1 p.2 with
      | some r => rows ++ [r]
      | none => rows)
    []

/-- The run pipeline, from the credential check to the computed row list:
everything of the run block up to (and excluding) the publication of
`results_df`.  `published_after` and `nowSec` stand for the wall-clock
values computed at run start (the source always computes a non-empty
`published_after` string). -/
def runPipeline (cfg : RunConfig) (published_after : String) (nowSec : ℚ) (gw : GwState) :
    Except RunError (List ResultRow) × GwState :=
  if cfg.api_key = "" then (.error .missingKey, gw)
  else
    let input_channels := input_channels_of cfg
    let base_keywords := cfg.effective_keywords
    if input_channels = [] ∧ base_keywords = [] then (.error .configError, gw)
    else
      match (if cfg.run_mode = "채널" ∨ cfg.run_mode = "둘다" then
              resolve_channel_ids input_channels [] gw
             else (.ok [], gw)) with
      | (.error e, gw1) => (.error (.gateway e), gw1)
      | (.ok channels, gw1) =>
        match (if cfg.run_mode = "채널" ∨ cfg.run_mode = "둘다" then
                fan_out (some published_after) "date" cfg.per_channel_max
                  (cfg.target_regions.flatMap fun r => channels.map fun c => (r, c)) [] gw1
               else (.ok [], gw1)) with
        | (.error e, gw2) => (.error (.gateway e), gw2)
        | (.ok collected1, gw2) =>
          match (if cfg.run_mode = "키워드" ∨ cfg.run_mode = "둘다" then
                  fan_out (some published_after) "viewCount" cfg.per_keyword_max
                    (cfg.target_regions.flatMap fun r =>
                      (base_keywords.filter fun k => k ≠ "").map fun k => (r, k))
                    collected1 gw2
                 else (.ok collected1, gw2)) with
          | (.error e, gw3) => (.error (.gateway e), gw3)
          | (.ok collected, gw3) =>
            match fetch_video_details collected gw3 with
            | (.error e, gw4) => (.error (.gateway e), gw4)
            | (.ok details, gw4) =>
              let channel_ids := dedupList (details.map fun p => p.2.channelId)
              match (if channel_ids.isEmpty then (.ok ([] : List (String × Nat)), gw4)
                     else fetch_channel_subs channel_ids gw4) with
              | (.error e, gw5) => (.error (.gateway e), gw5)
              | (.ok subs_map, gw5) =>
                (.ok (buildRows cfg nowSec details subs_map), gw5)

/-- The published part of the session state. -/
structure SessionResults where
  results_df : List ResultRow
  payload_cache : List ResultRow
  deriving DecidableEq

/-- The whole run block: on pipeline success the published result set is
replaced wholesale (and the payload cache invalidated) as the final
statements of the block; a raised error leaves the published state as it
was. -/
def runBlock (cfg : RunConfig) (published_after : String) (nowSec : ℚ) (gw : GwState)
    (sess : SessionResults) : SessionResults × GwState :=
  match runPipeline cfg published_after nowSec gw with
  | (.ok rows, gw2) => ({ results_df := rows, payload_cache := [] }, gw2)
  | (.error _, gw2) => (sess, gw2)

/-- A gateway environment with empty streams, used to instantiate theorems
at concrete inputs. -/
def gwEmpty : GwState :=
  { searchReplies := []
    resolveReplies := fun _ => .error ⟨0, ""⟩
    nResolve := 0
    videosReplies := fun _ => .error ⟨0, ""⟩
    nVideos := 0
    channelsReplies := fun _ => .error ⟨0, ""⟩
    nChannels := 0
    quota := init_quota
    calls := [] }

/-- A concrete video detail record for instantiating theorems. -/
def vItem0 : VItem :=
  { id := "v", title := "t", description := "", tags := [], channelId := "c",
    channelTitle := "ct", publishedAtSec := 0, viewCount := 100, duration := none }

/-- A concrete result row for instantiating theorems. -/
def row0 : ResultRow :=
  { channel := "c", video_title := "t", uploaded_ts := 0, views := 1, views_per_hour := 1,
    subscribers := 0, views_to_subscribers := none, duration := "00:01", duration_sec := 1,
    url := "u", vid := "v" }

/-- A concrete run configuration for instantiating theorems. -/
def cfgBase : RunConfig :=
  { api_key := "k"
    run_mode := "둘다"
    form_factor := "둘다"
    shorts_sec := 60
    days_back := 180
    per_channel_max := 200
    per_keyword_max := 200
    min_vph := 0
    wait_minutes := 0
    ignore_filters := false
    target_regions := ["KR"]
    strict_on := true
    strict_mode_key := "any"
    effective_keywords := []
    channels_input := none }

/-! # Theorems -/

/-! ## Quota ledger lemmas -/

theorem record_quota_units (q : QuotaState) (e p : String) (t : Nat) :
    (_record_quota q e p t).q_units = q.q_units + _quota_units_for e := by
  simp only [_record_quota, _quota_units_for]
  split_ifs <;> rfl

theorem record_quota_log (q : QuotaState) (e p : String) (t : Nat) :
    (_record_quota q e p t).q_log = q.q_log ++ [(e, _quota_units_for e, p, t)] := by
  simp only [_record_quota]
  split_ifs <;> rfl

theorem record_quota_inv (q : QuotaState) (e p : String) (t : Nat)
    (h : q.q_units = 100 * q.search + q.videos + q.channels) :
    (_record_quota q e p t).q_units =
      100 * (_record_quota q e p t).search + (_record_quota q e p t).videos
        + (_record_quota q e p t).channels := by
  simp only [_record_quota, _quota_units_for]
  split_ifs <;> simp <;> omega

theorem run_quota_inv_aux (calls : List (String × String × Nat)) :
    ∀ q : QuotaState, q.q_units = 100 * q.search + q.videos + q.channels →
      (calls.foldl (fun q c => _record_quota q c.1 c.2.1 c.2.2) q).q_units =
        100 * (calls.foldl (fun q c => _record_quota q c.1 c.2.1 c.2.2) q).search
          + (calls.foldl (fun q c => _record_quota q c.1 c.2.1 c.2.2) q).videos
          + (calls.foldl (fun q c => _record_quota q c.1 c.2.1 c.2.2) q).channels := by
  induction calls with
  | nil => intro q h; exact h
  | cons c cs ih =>
    intro q h
    exact ih _ (record_quota_inv q c.1 c.2.1 c.2.2 h)

/-- C2: after any sequence of recorded calls the cumulative unit total
equals the sum over the endpoint kinds of count times unit cost (100 for
search, 1 for videos, 1 for channels); recording one call of kind k bumps
exactly that counter by one, adds that cost to the total, and appends
exactly one log entry. -/
theorem quota_ledger_invariant :
    (∀ calls : List (String × String × Nat),
      (run_quota calls).q_units =
        unit_cost .search * kind_count (run_quota calls) .search
          + unit_cost .videos * kind_count (run_quota calls) .videos
          + unit_cost .channels * kind_count (run_quota calls) .channels)
  ∧ (∀ (q : QuotaState) (e p : String) (t : Nat),
      (_record_quota q e p t).q_log = q.q_log ++ [(e, _quota_units_for e, p, t)])
  ∧ (∀ (q : QuotaState) (e p : String) (t : Nat),
      (_record_quota q e p t).q_units = q.q_units + _quota_units_for e)
  ∧ (∀ (q : QuotaState) (e p : String) (t : Nat) (k : EKind), kindOf e = some k →
      _quota_units_for e = unit_cost k
      ∧ kind_count (_record_quota q e p t) k = kind_count q k + 1
      ∧ ∀ k2, k2 ≠ k → kind_count (_record_quota q e p t) k2 = kind_count q k2) := by
  refine ⟨?_, record_quota_log, record_quota_units, ?_⟩
  · intro calls
    simp only [unit_cost, kind_count, run_quota, one_mul]
    exact run_quota_inv_aux calls init_quota rfl
  · intro q e p t k hk
    by_cases h1 : startswith e "search"
    · simp [kindOf, h1] at hk
      subst hk
      refine ⟨by simp [_quota_units_for, h1, unit_cost], ?_, ?_⟩
      · simp [_record_quota, h1, kind_count]
      · intro k2 hne
        cases k2 <;> simp_all [_record_quota, h1, kind_count]
    · by_cases h2 : startswith e "videos"
      · simp [kindOf, h1, h2] at hk
        subst hk
        refine ⟨by simp [_quota_units_for, h1, h2, unit_cost], ?_, ?_⟩
        · simp [_record_quota, h1, h2, kind_count]
        · intro k2 hne
          cases k2 <;> simp_all [_record_quota, h1, h2, kind_count]
      · by_cases h3 : startswith e "channels"
        · simp [kindOf, h1, h2, h3] at hk
          subst hk
          refine ⟨by simp [_quota_units_for, h1, h2, h3, unit_cost], ?_, ?_⟩
          · simp [_record_quota, h1, h2, h3, kind_count]
          · intro k2 hne
            cases k2 <;> simp_all [_record_quota, h1, h2, h3, kind_count]
        · simp [kindOf, h1, h2, h3] at hk

theorem quota_ledger_invariant_witness :
    kind_count (_record_quota init_quota "search" "p" 7) .search
      = kind_count init_quota .search + 1 :=
  (quota_ledger_invariant.2.2.2 init_quota "search" "p" 7 .search (by decide)).2.1

/-! ## Keyword filter -/

theorem contains_keywords_eq (text : String) (keywords : List String) (mode : String)
    (hne : keywords ≠ []) :
    contains_keywords text keywords mode =
      if mode = "all" then
        ((keywords.filter fun k => pyStrip k ≠ "").map normalize_text).all
          (fun k => substrOf (normalize_text text) k)
      else
        ((keywords.filter fun k => pyStrip k ≠ "").map normalize_text).any
          (fun k => substrOf (normalize_text text) k) := by
  unfold contains_keywords
  rw [if_neg]
  simp [List.isEmpty_iff, hne]

/-- C6: the empty keyword list accepts in every mode; a non-empty list in
mode "all" rejects any item whose normalized text lacks one of the
normalized (blank-stripped) keywords as a substring; in mode "any" an item
is accepted exactly when at least one such keyword occurs in the
normalized text. -/
theorem contains_keywords_modes (text : String) (keywords : List String) :
    (∀ mode, keywords = [] → contains_keywords text keywords mode = true)
  ∧ (keywords ≠ [] →
      (∃ k ∈ (keywords.filter fun k => pyStrip k ≠ "").map normalize_text,
          substrOf (normalize_text text) k = false) →
      contains_keywords text keywords "all" = false)
  ∧ (keywords ≠ [] →
      (contains_keywords text keywords "any" = true ↔
        ∃ k ∈ (keywords.filter fun k => pyStrip k ≠ "").map normalize_text,
          substrOf (normalize_text text) k = true)) := by
  refine ⟨?_, ?_, ?_⟩
  · intro mode h; subst h; rfl
  · intro hne hex
    obtain ⟨k, hk, hfalse⟩ := hex
    rw [contains_keywords_eq text keywords "all" hne, if_pos rfl]
    cases hall : ((keywords.filter fun k => pyStrip k ≠ "").map normalize_text).all
        (fun k => substrOf (normalize_text text) k) with
    | false => rfl
    | true =>
      rw [List.all_eq_true] at hall
      rw [hall k hk] at hfalse
      exact absurd hfalse (by decide)
  · intro hne
    rw [contains_keywords_eq text keywords "any" hne, if_neg (by decide)]
    exact List.any_eq_true

theorem contains_keywords_modes_witness :
    contains_keywords "some text" [] "any" = true :=
  (contains_keywords_modes "some text" []).1 "any" rfl

/-- C10: a non-empty keyword list whose members all strip to the empty
string is discarded before matching, so mode "any" rejects every item and
mode "all" accepts every item; the vacuous acceptance of the empty list is
confined to the literally empty list. -/
theorem blank_keywords_behavior (text : String) (keywords : List String)
    (hne : keywords ≠ []) (hblank : ∀ k ∈ keywords, pyStrip k = "") :
    contains_keywords text keywords "any" = false
  ∧ contains_keywords text keywords "all" = true := by
  have hfil : (keywords.filter fun k => pyStrip k ≠ "") = [] := by
    rw [List.filter_eq_nil_iff]
    intro a ha
    simp [hblank a ha]
  constructor
  · rw [contains_keywords_eq text keywords "any" hne, if_neg (by decide), hfil]
    rfl
  · rw [contains_keywords_eq text keywords "all" hne, if_pos rfl, hfil]
    rfl

theorem blank_keywords_behavior_witness :
    contains_keywords "hello" ["  "] "any" = false
  ∧ contains_keywords "hello" ["  "] "all" = true :=
  blank_keywords_behavior "hello" ["  "] (by decide) (by decide)

/-! ## Metric calculator -/

/-- C7: views-per-hour is exactly views over the elapsed-hours floor, the
divisor is strictly positive (defined, never a division by zero), the value
is non-negative, and for a fixed item it is non-increasing as the elapsed
time since publish grows. -/
theorem views_per_hour_props (detail : VItem) (now1 now2 : ℚ) :
    (compute_metrics now1 detail).viewsPerHour
        = (detail.viewCount : ℚ) / max ((now1 - detail.publishedAtSec) / 3600) (1 / 1000000)
  ∧ (0 : ℚ) < max ((now1 - detail.publishedAtSec) / 3600) (1 / 1000000)
  ∧ 0 ≤ (compute_metrics now1 detail).viewsPerHour
  ∧ (now1 ≤ now2 →
      (compute_metrics now2 detail).viewsPerHour ≤ (compute_metrics now1 detail).viewsPerHour) := by
  have hpos : ∀ x : ℚ, (0 : ℚ) < max x (1 / 1000000) := fun x =>
    lt_of_lt_of_le (by norm_num) (le_max_right x _)
  refine ⟨rfl, hpos _, ?_, ?_⟩
  · exact div_nonneg (Nat.cast_nonneg _) (hpos _).le
  · intro h
    show (detail.viewCount : ℚ) / max ((now2 - detail.publishedAtSec) / 3600) (1 / 1000000)
        ≤ (detail.viewCount : ℚ) / max ((now1 - detail.publishedAtSec) / 3600) (1 / 1000000)
    have hmax : max ((now1 - detail.publishedAtSec) / 3600) (1 / 1000000 : ℚ)
        ≤ max ((now2 - detail.publishedAtSec) / 3600) (1 / 1000000) := by
      apply max_le_max _ le_rfl
      exact (div_le_div_iff_of_pos_right (by norm_num)).mpr (by linarith)
    exact div_le_div_of_nonneg_left (Nat.cast_nonneg _) (hpos _) hmax

theorem views_per_hour_props_witness :
    (compute_metrics 7200 vItem0).viewsPerHour ≤ (compute_metrics 3600 vItem0).viewsPerHour :=
  (views_per_hour_props vItem0 3600 7200).2.2.2 (by norm_num)

/-! ## Gateway retry policy -/

theorem retryCond_iff (r : HttpResponse) (wm : ℚ) (t m : Nat) :
    retryCond r wm t m = true ↔
      (r.status = 403 ∨ r.status = 429)
      ∧ (∃ k ∈ quotaTokens, substrOf (pyLower (extractReason r)) k = true)
      ∧ 0 < wm ∧ t ≤ m := by
  simp [retryCond, Bool.and_eq_true, Bool.or_eq_true, List.any_eq_true, decide_eq_true_eq,
    and_assoc]

/-- C1: with the current response failing (status not 200), the gateway
retries, with the same request, exactly when the status is 403 or 429, the
extracted reason lower-cased contains one of the tokens quota, daily, rate,
exceed, the wait is positive, and the retry about to be performed still
fits the budget; any other failure, in particular every 404 response, ends
the call with an error carrying the status code and raw body. -/
theorem yt_get_retry_policy (resp : Nat → HttpResponse) (wait_minutes : ℚ)
    (max_retries attempt tries : Nat)
    (hfail : (resp attempt).status ≠ 200) :
    (ytGetAux resp wait_minutes max_retries attempt tries =
      if ((resp attempt).status = 403 ∨ (resp attempt).status = 429)
          ∧ (∃ k ∈ quotaTokens,
              substrOf (pyLower (extractReason (resp attempt))) k = true)
          ∧ 0 < wait_minutes ∧ tries + 1 ≤ max_retries
      then ytGetAux resp wait_minutes max_retries (attempt + 1) (tries + 1)
      else .error ((resp attempt).status, (resp attempt).text))
  ∧ ((resp attempt).status = 404 →
      ytGetAux resp wait_minutes max_retries attempt tries
        = .error (404, (resp attempt).text)) := by
  have hstep : ytGetAux resp wait_minutes max_retries attempt tries =
      if h : retryCond (resp attempt) wait_minutes (tries + 1) max_retries = true then
        ytGetAux resp wait_minutes max_retries (attempt + 1) (tries + 1)
      else .error ((resp attempt).status, (resp attempt).text) := by
    rw [ytGetAux.eq_def]
    simp only []
    rw [if_neg hfail]
  constructor
  · rw [hstep]
    by_cases hc : retryCond (resp attempt) wait_minutes (tries + 1) max_retries = true
    · rw [dif_pos hc, if_pos ((retryCond_iff _ _ _ _).mp hc)]
    · rw [dif_neg hc, if_neg (fun hp => hc ((retryCond_iff _ _ _ _).mpr hp))]
  · intro h404
    have hcneg : ¬ retryCond (resp attempt) wait_minutes (tries + 1) max_retries = true := by
      intro hc
      rcases ((retryCond_iff _ _ _ _).mp hc).1 with h | h <;>
        · rw [h404] at h; exact absurd h (by decide)
    rw [hstep, dif_neg hcneg, h404]

theorem yt_get_retry_policy_witness :
    ytGetAux (fun _ => ⟨404, none, "", "notFound"⟩) 1 2 0 0
      = .error (404, "notFound") :=
  (yt_get_retry_policy (fun _ => ⟨404, none, "", "notFound"⟩) 1 2 0 0 (by decide)).2 rfl

/-! ## Run atomicity and fail-fast -/

/-- C5: the run block publishes atomically: when the pipeline raises, the
previously published result set is exactly what it was; when it completes,
the published result set is replaced wholesale by the rows it computed. -/
theorem run_results_atomic (cfg : RunConfig) (pa : String) (now : ℚ) (gw : GwState)
    (sess : SessionResults) :
    (∀ e, (runPipeline cfg pa now gw).1 = .error e →
      (runBlock cfg pa now gw sess).1.results_df = sess.results_df)
  ∧ (∀ rows, (runPipeline cfg pa now gw).1 = .ok rows →
      (runBlock cfg pa now gw sess).1.results_df = rows) := by
  rcases hp : runPipeline cfg pa now gw with ⟨res, gw2⟩
  cases res with
  | ok rows =>
    constructor
    · intro e he
      exact absurd he (by simp)
    · intro rows2 h2
      simp only [Except.ok.injEq] at h2
      subst h2
      unfold runBlock
      rw [hp]
  | error e0 =>
    constructor
    · intro e he
      unfold runBlock
      rw [hp]
    · intro rows2 h2
      exact absurd h2 (by simp)

theorem run_results_atomic_witness :
    (runBlock { cfgBase with api_key := "" } "pa" 0 gwEmpty
        { results_df := [row0], payload_cache := [] }).1.results_df
      = ({ results_df := [row0], payload_cache := [] } : SessionResults).results_df :=
  (run_results_atomic { cfgBase with api_key := "" } "pa" 0 gwEmpty
      { results_df := [row0], payload_cache := [] }).1 .missingKey rfl

/-- C9: when, after resolving the run-mode inputs, the channel list and the
effective keyword list are both empty (and a credential is present so the
run reaches the input check), the run raises the configuration error with
the gateway state untouched: no network call is issued, no quota recorded,
and the session is left unchanged by the whole block. -/
theorem config_error_fail_fast (cfg : RunConfig) (pa : String) (now : ℚ) (gw : GwState)
    (hkey : cfg.api_key ≠ "")
    (hch : input_channels_of cfg = [])
    (hkw : cfg.effective_keywords = []) :
    runPipeline cfg pa now gw = (.error .configError, gw)
  ∧ ∀ sess, runBlock cfg pa now gw sess = (sess, gw) := by
  have hp : runPipeline cfg pa now gw = (.error .configError, gw) := by
    unfold runPipeline
    rw [if_neg hkey]
    simp only []
    rw [if_pos ⟨hch, hkw⟩]
  refine ⟨hp, fun sess => ?_⟩
  unfold runBlock
  rw [hp]

theorem config_error_fail_fast_witness :
    runPipeline cfgBase "pa" 0 gwEmpty = (.error .configError, gwEmpty) :=
  (config_error_fail_fast cfgBase "pa" 0 gwEmpty (by decide) rfl rfl).1

/-! ## Pagination walker lemmas -/

theorem appendItems_take (items : List String) : ∀ (ids : List String) (mr : Nat)
    (ids2 : List String) (flag : Bool), appendItems ids items mr = (ids2, flag) →
      ∃ k ≤ items.length, ids2 = ids ++ items.take k := by
  induction items with
  | nil =>
    intro ids mr ids2 flag h
    injection h with h1 _
    exact ⟨0, Nat.le_refl 0, by simp [h1.symm]⟩
  | cons v vs ih =>
    intro ids mr ids2 flag h
    unfold appendItems at h
    by_cases hle : mr ≤ (ids ++ [v]).length
    · rw [if_pos hle] at h
      injection h with h1 _
      exact ⟨1, by simp, by simp [h1.symm]⟩
    · rw [if_neg hle] at h
      obtain ⟨k, hk, heq⟩ := ih (ids ++ [v]) mr ids2 flag h
      refine ⟨k + 1, by simpa using hk, ?_⟩
      rw [heq]
      simp [List.take_succ_cons]

theorem appendItems_false (items : List String) : ∀ (ids : List String) (mr : Nat)
    (ids2 : List String), appendItems ids items mr = (ids2, false) →
      ids2 = ids ++ items ∧ (items ≠ [] → ids2.length < mr) := by
  induction items with
  | nil =>
    intro ids mr ids2 h
    injection h with h1 _
    exact ⟨by simp [h1.symm], fun h => absurd rfl h⟩
  | cons v vs ih =>
    intro ids mr ids2 h
    unfold appendItems at h
    by_cases hle : mr ≤ (ids ++ [v]).length
    · rw [if_pos hle] at h
      injection h with _ h2
      exact absurd h2 (by simp)
    · rw [if_neg hle] at h
      obtain ⟨h1, h2⟩ := ih (ids ++ [v]) mr ids2 h
      refine ⟨by rw [h1]; simp, fun _ => ?_⟩
      by_cases hvs : vs = []
      · subst hvs
        rw [h1]
        simp only [List.length_append, List.length_nil, List.length_cons] at hle ⊢
        omega
      · exact h2 hvs

theorem appendItems_true (items : List String) : ∀ (ids : List String) (mr : Nat)
    (ids2 : List String), appendItems ids items mr = (ids2, true) →
      ids2.length = max mr (ids.length + 1) := by
  induction items with
  | nil =>
    intro ids mr ids2 h
    injection h with _ h2
    exact absurd h2 (by simp)
  | cons v vs ih =>
    intro ids mr ids2 h
    unfold appendItems at h
    by_cases hle : mr ≤ (ids ++ [v]).length
    · rw [if_pos hle] at h
      injection h with h1 _
      rw [← h1]
      simp only [List.length_append, List.length_cons, List.length_nil] at hle ⊢
      omega
    · rw [if_neg hle] at h
      rw [ih (ids ++ [v]) mr ids2 h]
      simp only [List.length_append, List.length_cons, List.length_nil] at hle ⊢
      omega

theorem walk_aux_spec (eff : String) (mr : Nat) :
    ∀ (replies : List (Except Fatal SearchPage)) (ids0 : List String) (q : QuotaState)
      (tr : List GwCall),
      (ids0.length < mr ∨ ids0.length = 0) →
      ∀ ids, (fetch_videos_by_search_aux eff mr replies ids0 q tr).result = Except.ok ids →
        (∃ rest, ids ++ rest = ids0 ++ (replies.map pageItems).flatten)
        ∧ ids.length ≤ max mr 1 := by
  intro replies
  induction replies with
  | nil =>
    intro ids0 q tr hinv ids hok
    simp only [fetch_videos_by_search_aux, Except.ok.injEq] at hok
    subst hok
    refine ⟨⟨[], by simp⟩, ?_⟩
    rcases hinv with h | h <;> omega
  | cons rep rest ih =>
    intro ids0 q tr hinv ids hok
    cases rep with
    | error e =>
      simp [fetch_videos_by_search_aux] at hok
    | ok page =>
      simp only [fetch_videos_by_search_aux] at hok
      rcases happ : appendItems ids0 page.items mr with ⟨ids2, flag⟩
      rw [happ] at hok
      have hstop : ids2 = ids → flag = false →
          (∃ rest2, ids ++ rest2 = ids0 ++ ((Except.ok page :: rest).map pageItems).flatten)
          ∧ ids.length ≤ max mr 1 := by
        intro hid hfl
        subst hid
        subst hfl
        obtain ⟨h1, h2⟩ := appendItems_false page.items ids0 mr ids2 happ
        constructor
        · refine ⟨(rest.map pageItems).flatten, ?_⟩
          rw [h1]
          simp [pageItems, List.append_assoc]
        · by_cases hit : page.items = []
          · rw [h1, hit, List.append_nil]
            rcases hinv with h | h <;> omega
          · have := h2 hit
            omega
      cases flag with
      | true =>
        simp only [Except.ok.injEq] at hok
        subst hok
        constructor
        · obtain ⟨k, _, heq⟩ := appendItems_take page.items ids0 mr ids2 true happ
          refine ⟨page.items.drop k ++ (rest.map pageItems).flatten, ?_⟩
          rw [heq]
          simp only [pageItems, List.map_cons, List.flatten_cons, List.append_assoc]
          rw [← List.append_assoc (page.items.take k), List.take_append_drop]
        · rw [appendItems_true page.items ids0 mr ids2 happ]
          rcases hinv with h | h <;> omega
      | false =>
        have hinv2 : ids2.length < mr ∨ ids2.length = 0 := by
          obtain ⟨h1, h2⟩ := appendItems_false page.items ids0 mr ids2 happ
          by_cases hit : page.items = []
          · rw [h1, hit, List.append_nil]
            exact hinv
          · exact Or.inl (h2 hit)
        cases htok : page.nextPageToken with
        | none =>
          rw [htok] at hok
          simp only [Except.ok.injEq] at hok
          exact hstop hok rfl
        | some tok =>
          rw [htok] at hok
          dsimp only at hok
          by_cases htne : tok ≠ ""
          · rw [if_pos htne] at hok
            obtain ⟨⟨rest2, heq2⟩, hlen⟩ :=
              ih ids2 (_record_quota q "search" "" 0)
                (tr ++ [⟨"search", some eff⟩]) hinv2 ids hok
            refine ⟨⟨rest2, ?_⟩, hlen⟩
            obtain ⟨h1, _⟩ := appendItems_false page.items ids0 mr ids2 happ
            rw [heq2, h1]
            simp [pageItems, List.append_assoc]
          · rw [if_neg htne] at hok
            simp only [Except.ok.injEq] at hok
            exact hstop hok rfl

theorem walk_aux_trace (eff : String) (mr : Nat) :
    ∀ (replies : List (Except Fatal SearchPage)) (ids0 : List String) (q : QuotaState)
      (tr : List GwCall) (c : GwCall),
      c ∈ (fetch_videos_by_search_aux eff mr replies ids0 q tr).trace →
        c ∈ tr ∨ c = ⟨"search", some eff⟩ := by
  intro replies
  induction replies with
  | nil =>
    intro ids0 q tr c hc
    simp only [fetch_videos_by_search_aux] at hc
    exact Or.inl hc
  | cons rep rest ih =>
    intro ids0 q tr c hc
    have hsplit : c ∈ tr ++ [(⟨"search", some eff⟩ : GwCall)] →
        c ∈ tr ∨ c = ⟨"search", some eff⟩ := by
      intro h
      rcases List.mem_append.mp h with h | h
      · exact Or.inl h
      · simp only [List.mem_singleton] at h
        exact Or.inr h
    cases rep with
    | error e =>
      simp only [fetch_videos_by_search_aux] at hc
      exact hsplit hc
    | ok page =>
      simp only [fetch_videos_by_search_aux] at hc
      rcases happ : appendItems ids0 page.items mr with ⟨ids2, flag⟩
      rw [happ] at hc
      cases flag with
      | true => exact hsplit hc
      | false =>
        cases htok : page.nextPageToken with
        | none =>
          rw [htok] at hc
          exact hsplit hc
        | some tok =>
          rw [htok] at hc
          dsimp only at hc
          by_cases htne : tok ≠ ""
          · rw [if_pos htne] at hc
            rcases ih ids2 (_record_quota q "search" "" 0)
                (tr ++ [⟨"search", some eff⟩]) c hc with h | h
            · exact hsplit h
            · exact Or.inr h
          · rw [if_neg htne] at hc
            exact hsplit hc

/-- C3 counterexample: the walker does not deduplicate (dedup happens later
in the orchestrator set), so a response sequence repeating an id across
pages yields a repeated id in the result; and with `maxResults = 0` the
post-append cap check still returns one id, exceeding the cap. -/
theorem walker_claim_counterexample :
    (fetch_videos_by_search none "date" 5
        [Except.ok ⟨["a"], some "tok"⟩, Except.ok ⟨["a"], none⟩] init_quota []).result
      = Except.ok ["a", "a"]
  ∧ ¬ (["a", "a"] : List String).Nodup
  ∧ (fetch_videos_by_search none "date" 0
        [Except.ok ⟨["a"], none⟩] init_quota []).result
      = Except.ok ["a"]
  ∧ 0 < (["a"] : List String).length := by
  refine ⟨rfl, by decide, rfl, by decide⟩

/-- C3 amended: the walk result is a prefix of the concatenation of the
pages' identifiers; hence it holds at most max(maxResults, 1) identifiers
(at most maxResults whenever maxResults is at least 1), and it holds no
identifier twice provided the pages themselves repeat no identifier. -/
theorem walker_prefix_cap_nodup (published_after : Option String) (order : String)
    (max_results : Nat) (replies : List (Except Fatal SearchPage)) (q : QuotaState)
    (tr : List GwCall) (ids : List String)
    (h : (fetch_videos_by_search published_after order max_results replies q tr).result
          = Except.ok ids) :
    (∃ rest, ids ++ rest = (replies.map pageItems).flatten)
  ∧ ids.length ≤ max max_results 1
  ∧ ((replies.map pageItems).flatten.Nodup → ids.Nodup) := by
  obtain ⟨⟨rest, heq⟩, hlen⟩ :=
    walk_aux_spec (effective_order published_after order) max_results replies [] q tr
      (Or.inr rfl) ids h
  have heq2 : ids ++ rest = (replies.map pageItems).flatten := by simpa using heq
  refine ⟨⟨rest, heq2⟩, hlen, ?_⟩
  intro hnd
  rw [← heq2] at hnd
  exact hnd.of_append_left

theorem walker_prefix_cap_nodup_witness :
    (∃ rest, ["a", "b"] ++ rest
        = (([Except.ok ⟨["a", "b"], none⟩] : List (Except Fatal SearchPage)).map
            pageItems).flatten)
  ∧ (["a", "b"] : List String).length ≤ max 3 1
  ∧ ((([Except.ok ⟨["a", "b"], none⟩] : List (Except Fatal SearchPage)).map
        pageItems).flatten.Nodup → (["a", "b"] : List String).Nodup) :=
  walker_prefix_cap_nodup none "date" 3 [Except.ok ⟨["a", "b"], none⟩] init_quota []
    ["a", "b"] rfl

/-- C4: every search request a walk issues carries the effective order:
"date" when publishedAfter is set (truthy) and the requested order is not
already "date", and the requested order unchanged otherwise; in particular
a walk with publishedAfter set and requested order "viewCount" issues all
its requests with order "date". -/
theorem walker_order_override (published_after : Option String) (order : String)
    (max_results : Nat) (replies : List (Except Fatal SearchPage)) (q : QuotaState) :
    (truthy published_after = true → order ≠ "date" →
      ∀ c ∈ (fetch_videos_by_search published_after order max_results replies q []).trace,
        c.order = some "date")
  ∧ (¬ (truthy published_after = true ∧ order ≠ "date") →
      ∀ c ∈ (fetch_videos_by_search published_after order max_results replies q []).trace,
        c.order = some order)
  ∧ (truthy published_after = true →
      ∀ c ∈ (fetch_videos_by_search published_after "viewCount" max_results replies q []).trace,
        c.order = some "date") := by
  have base : ∀ (ord : String) (c : GwCall),
      c ∈ (fetch_videos_by_search published_after ord max_results replies q []).trace →
        c = ⟨"search", some (effective_order published_after ord)⟩ := by
    intro ord c hc
    rcases walk_aux_trace (effective_order published_after ord) max_results replies [] q [] c hc
      with h | h
    · simp at h
    · exact h
  refine ⟨?_, ?_, ?_⟩
  · intro h1 h2 c hc
    rw [base order c hc]
    simp [effective_order, h1, h2]
  · intro hno c hc
    rw [base order c hc]
    have heff : effective_order published_after order = order := by
      unfold effective_order
      rw [if_neg]
      intro hcond
      simp only [Bool.and_eq_true, decide_eq_true_eq] at hcond
      exact hno ⟨hcond.1, hcond.2⟩
    rw [heff]
  · intro h1 c hc
    rw [base "viewCount" c hc]
    have hvc : ("viewCount" : String) ≠ "date" := by decide
    simp [effective_order, h1, hvc]

theorem walker_order_override_witness :
    ((fetch_videos_by_search (some "2024-01-01T00:00:00Z") "viewCount" 5
        [Except.ok ⟨["a"], none⟩] init_quota []).trace).all
      (fun c => c.order == some "date") = true := by
  apply List.all_eq_true.mpr
  intro c hc
  have h := (walker_order_override (some "2024-01-01T00:00:00Z") "viewCount" 5
      [Except.ok ⟨["a"], none⟩] init_quota).2.2 (by decide) c hc
  simp [h]

/-! ## Batching lemmas -/

theorem batchedAux_nil_eq (acc : List String) :
    batchedAux 50 [] acc = if acc = [] then [] else [acc] := rfl

theorem batchedAux_cons_eq (x : String) (xs acc : List String) :
    batchedAux 50 (x :: xs) acc =
      if (acc ++ [x]).length = 50 then (acc ++ [x]) :: batchedAux 50 xs []
      else batchedAux 50 xs (acc ++ [x]) := rfl

theorem batchedAux_eq (xs : List String) : ∀ acc : List String, acc.length < 50 →
    batchedAux 50 xs acc =
      if acc ++ xs = [] then []
      else (acc ++ xs).take 50 :: batchedAux 50 ((acc ++ xs).drop 50) [] := by
  induction xs with
  | nil =>
    intro acc hlen
    by_cases hacc : acc = []
    · subst hacc
      rfl
    · rw [batchedAux_nil_eq, if_neg hacc, List.append_nil, if_neg hacc,
        List.take_of_length_le (Nat.le_of_lt hlen),
        List.drop_eq_nil_of_le (Nat.le_of_lt hlen), batchedAux_nil_eq]
      rfl
  | cons x xs ih =>
    intro acc hlen
    rw [batchedAux_cons_eq]
    by_cases hfull : (acc ++ [x]).length = 50
    · rw [if_pos hfull]
      have hne : acc ++ x :: xs ≠ [] := by simp
      rw [if_neg hne]
      have hsplit : acc ++ x :: xs = (acc ++ [x]) ++ xs := by simp
      have ht : (acc ++ x :: xs).take 50 = acc ++ [x] := by
        rw [hsplit, ← hfull]
        exact List.take_left (acc ++ [x]) xs
      have hd : (acc ++ x :: xs).drop 50 = xs := by
        rw [hsplit, ← hfull]
        exact List.drop_left (acc ++ [x]) xs
      rw [ht, hd]
    · rw [if_neg hfull]
      have hlen2 : (acc ++ [x]).length < 50 := by
        simp only [List.length_append, List.length_cons, List.length_nil] at hfull ⊢
        omega
      rw [ih (acc ++ [x]) hlen2]
      have hsplit : acc ++ x :: xs = (acc ++ [x]) ++ xs := by simp
      rw [hsplit]

theorem batched_cons (l : List String) (hnil : l ≠ []) :
    batched l 50 = l.take 50 :: batched (l.drop 50) 50 := by
  unfold batched
  rw [batchedAux_eq l [] (by norm_num)]
  simp [hnil]

theorem batched_facts (N : Nat) : ∀ l : List String, l.length ≤ N →
    (batched l 50).flatten = l
    ∧ (batched l 50).length = (l.length + 49) / 50
    ∧ ∀ c ∈ batched l 50, c.length ≤ 50 := by
  induction N with
  | zero =>
    intro l hl
    have hnil : l = [] := List.length_eq_zero.mp (Nat.le_zero.mp hl)
    subst hnil
    exact ⟨rfl, rfl, by simp [batched, batchedAux]⟩
  | succ N ih =>
    intro l hl
    by_cases hnil : l = []
    · subst hnil
      exact ⟨rfl, rfl, by simp [batched, batchedAux]⟩
    · have hpos : 1 ≤ l.length := List.length_pos.mpr hnil
      have hstep := batched_cons l hnil
      have hdrop : (l.drop 50).length ≤ N := by
        rw [List.length_drop]
        omega
      obtain ⟨hj, hc, hb⟩ := ih (l.drop 50) hdrop
      refine ⟨?_, ?_, ?_⟩
      · rw [hstep, List.flatten_cons, hj]
        exact List.take_append_drop 50 l
      · rw [hstep, List.length_cons, hc, List.length_drop]
        omega
      · intro c hcmem
        rw [hstep] at hcmem
        rcases List.mem_cons.mp hcmem with h | h
        · subst h
          rw [List.length_take]
          omega
        · exact hb c h

theorem fetch_details_aux_calls (batches : List (List String)) :
    ∀ (details : List (String × VItem)) (gw : GwState) (d : List (String × VItem)),
      (fetch_video_details_aux batches details gw).1 = Except.ok d →
        (fetch_video_details_aux batches details gw).2.calls
          = gw.calls ++ List.replicate batches.length (GwCall.mk "videos" none) := by
  induction batches with
  | nil =>
    intro details gw d _
    simp [fetch_video_details_aux]
  | cons b bs ih =>
    intro details gw d hok
    unfold fetch_video_details_aux at hok ⊢
    cases hrep : gw.videosReplies gw.nVideos with
    | error e =>
      rw [hrep] at hok
      simp at hok
    | ok items =>
      rw [hrep] at hok
      dsimp only at hok ⊢
      rw [ih _ _ d hok]
      simp [List.replicate_succ]

/-- C8: `batched` partitions the identifier list into consecutive chunks of
at most 50 whose concatenation is the input, producing ceil(n/50) chunks;
an input of 120 identifiers gives exactly the batch sizes 50, 50, 20; an
empty input gives no batch; and on a successful detail fetch exactly
ceil(n/50) gateway calls of kind "videos" are issued. -/
theorem detail_batch_partition (ids : List String) :
    (batched ids 50).length = (ids.length + 49) / 50
  ∧ (batched ids 50).flatten = ids
  ∧ (∀ c ∈ batched ids 50, c.length ≤ 50)
  ∧ (ids.length = 120 → (batched ids 50).map List.length = [50, 50, 20])
  ∧ (ids = [] → batched ids 50 = [])
  ∧ (∀ (gw : GwState) (d : List (String × VItem)),
      (fetch_video_details ids gw).1 = Except.ok d →
        (fetch_video_details ids gw).2.calls
          = gw.calls ++ List.replicate ((ids.length + 49) / 50) (GwCall.mk "videos" none)) := by
  obtain ⟨hj, hn, hb⟩ := batched_facts ids.length ids (Nat.le_refl _)
  refine ⟨hn, hj, hb, ?_, ?_, ?_⟩
  · intro h120
    have h1 : ids ≠ [] := by
      intro h
      rw [h] at h120
      simp at h120
    have h2 : ids.drop 50 ≠ [] := by
      intro h
      have := congrArg List.length h
      rw [List.length_drop, h120] at this
      simp at this
    have h3 : (ids.drop 50).drop 50 ≠ [] := by
      intro h
      have := congrArg List.length h
      rw [List.length_drop, List.length_drop, h120] at this
      simp at this
    have h4 : ((ids.drop 50).drop 50).drop 50 = [] := by
      apply List.eq_nil_of_length_eq_zero
      rw [List.length_drop, List.length_drop, List.length_drop, h120]
    rw [batched_cons ids h1, batched_cons _ h2, batched_cons _ h3, h4]
    have hb0 : batched ([] : List String) 50 = [] := rfl
    rw [hb0]
    simp only [List.map_cons, List.map_nil, List.length_take, List.length_drop, h120]
    norm_num
  · intro h
    subst h
    rfl
  · intro gw d hok
    unfold fetch_video_details at hok ⊢
    by_cases hids : ids.isEmpty
    · rw [if_pos hids] at hok ⊢
      have hidnil : ids = [] := List.isEmpty_iff.mp hids
      rw [hidnil]
      simp
    · rw [if_neg hids] at hok ⊢
      rw [fetch_details_aux_calls (batched ids 50) [] gw d hok, hn]

theorem detail_batch_partition_witness :
    (batched (List.replicate 120 "v") 50).map List.length = [50, 50, 20] :=
  (detail_batch_partition (List.replicate 120 "v")).2.2.2.1 (by simp)

end YtHotFinder
